import Mathlib

set_option maxRecDepth 40000

/-!
Verification of the keyval package (key/value configuration data with type
inference and schema validation), shallowly embedded from src/keyval.go.

Modelling conventions:
* a Go string is modelled as its list of characters (GStr);
* a Go slice is a List; where the code distinguishes nil slices from
  non-nil ones the model uses Option (List _);
* the Go map KeyVal (map[string]*Value) is an association list in first
  insertion order; a stored nil pointer is an entry whose value is none;
* Go functions that can panic return Option results, none meaning panic;
* float64 values are kept as exact rationals (the value before rounding);
  parse success/failure, which is all the package inspects, is modelled
  exactly, including the overflow-to-infinity range error;
* the unbounded search loops of GetMultiple and ProcessKVs run on explicit
  fuel one larger than the number of map entries, which is proved
  sufficient below (a fresh suffixed key must be found by then).
-/

/-- Model of a Go string: its list of characters. -/
abbrev GStr := List Char

/-- Build a modelled Go string from a Lean string literal. -/
def gs (s : String) : GStr := s.data

/-- Model of strings.Split with a one-character separator.
    As in Go, the result always has at least one element
    (strings.Split("", sep) is [""]). -/
def splitChar (sep : Char) : GStr → List GStr
  | [] => [[]]
  | c :: rest =>
    if c = sep then [] :: splitChar sep rest
    else
      match splitChar sep rest with
      | [] => [[c]]
      | g :: grps => (c :: g) :: grps

/-- Model of strings.ReplaceAll(s, " ", ""). -/
def removeSpaces (s : GStr) : GStr := s.filter (fun c => c ≠ ' ')

/-- Model of strings.TrimRight(s, " "). -/
def trimRightSpaces (s : GStr) : GStr := (s.reverse.dropWhile (fun c => c = ' ')).reverse

/-- Model of strings.TrimRight(strings.TrimLeft(s, " "), " "),
    the trimming used by toDate and toSlices. -/
def trimSpaces (s : GStr) : GStr := trimRightSpaces (s.dropWhile (fun c => c = ' '))

/-- Model of keyval.CleanString: removes every character of cutSet from str
    (one ReplaceAll per character of cutSet). -/
def CleanString (str cutSet : GStr) : GStr :=
  cutSet.foldl (fun acc c => acc.filter (fun d => d ≠ c)) str

/-- The decimal digit character for d < 10 (byte 48 + d). -/
def digitChar (d : Nat) : Char := Char.ofNat (48 + d)

/-- Digit recursion for natDec on explicit fuel (n itself shrinks by a
    factor of ten per step, so fuel n + 1 is always enough); structural
    recursion keeps the definition kernel-reducible. -/
def natDecAux : Nat → Nat → GStr
  | _, 0 => []
  | n, fuel + 1 =>
    if n < 10 then [digitChar n]
    else natDecAux (n / 10) fuel ++ [digitChar (n % 10)]

/-- Model of the decimal rendering done by fmt.Sprintf("%s%d", ...) for the
    numeric part: standard base-10 representation of a natural number. -/
def natDec (n : Nat) : GStr := natDecAux n (n + 1)

/-- Value of a digit string (used to invert natDec and to give the value of
    digit runs in the numeric parsers). -/
def decVal (l : GStr) : Nat := l.foldl (fun a c => 10 * a + (c.toNat - 48)) 0

/-- Is c an ASCII decimal digit. -/
def isDig (c : Char) : Bool := 48 ≤ c.toNat ∧ c.toNat ≤ 57

/-- Model of strconv.ParseInt(s, 10, 64): optional single sign, then one or
    more ASCII digits and nothing else; the value must fit in int64, since
    Go reports ErrRange (a failure for the callers here) on overflow.
    Base 10 is explicit in the source, so underscores are not accepted. -/
def goParseInt (s : GStr) : Option Int :=
  let p : Bool × GStr :=
    match s with
    | [] => (false, [])
    | c :: rest =>
      if c = '+' then (false, rest)
      else if c = '-' then (true, rest)
      else (false, c :: rest)
  if p.2 = [] then none
  else if p.2.all isDig then
    let v : Int := (if p.1 then -1 else 1) * (decVal p.2 : Int)
    if -(2 ^ 63) ≤ v ∧ v ≤ 2 ^ 63 - 1 then some v else none
  else none

/-- A float64 result, before rounding: a finite value sign * sig * 10^ex10
    (or sign * sig * 2^ex2 for the hexadecimal syntax), kept as its exact
    unnormalized components — the package never reads float values, only
    whether the parse succeeded — or an infinity/NaN special value. -/
inductive FloatVal where
  | decimal (neg : Bool) (sig : Nat) (ex10 : Int)
  | hexfp (neg : Bool) (sig : Nat) (ex2 : Int)
  | infinite (neg : Bool)
  | nan
deriving DecidableEq

/-- ASCII lower-casing of a character, as Go's case-insensitive name
    matching does. -/
def lowerC (c : Char) : Char :=
  if 'A' ≤ c ∧ c ≤ 'Z' then Char.ofNat (c.toNat + 32) else c

/-- Case-insensitive equality of strings (ASCII), as in Go's time and
    strconv name matching. -/
def eqFold (a b : GStr) : Bool := a.map lowerC = b.map lowerC

/-- Model of strconv's special-value scan: optional sign then "inf" or
    "infinity", or the unsigned "nan", each case-insensitively and
    consuming the whole string. -/
def parseSpecial (s : GStr) : Option FloatVal :=
  let p : Bool × GStr :=
    match s with
    | '+' :: r => (false, r)
    | '-' :: r => (true, r)
    | _ => (false, s)
  if eqFold p.2 (gs "inf") ∨ eqFold p.2 (gs "infinity") then some (FloatVal.infinite p.1)
  else if eqFold s (gs "nan") then some FloatVal.nan
  else none

/-- States of strconv's underscoreOK scan. -/
inductive USaw where
  | digit
  | other
  | under
deriving DecidableEq

/-- The scanning loop of strconv's underscoreOK: an underscore must be
    directly between digits (the 0x base marker counting as a digit). -/
def underscoreScan (hex : Bool) (saw : USaw) : GStr → Bool
  | [] => saw ≠ USaw.under
  | c :: rest =>
    if isDig c ∨ (hex ∧ 'a' ≤ lowerC c ∧ lowerC c ≤ 'f') then
      underscoreScan hex USaw.digit rest
    else if c = '_' then
      saw = USaw.digit && underscoreScan hex USaw.under rest
    else if saw = USaw.under then false
    else underscoreScan hex USaw.other rest

/-- Model of strconv.underscoreOK on a whole candidate float string. -/
def underscoreOK (s : GStr) : Bool :=
  let s1 : GStr :=
    match s with
    | c :: r => if c = '-' ∨ c = '+' then r else c :: r
    | [] => []
  match s1 with
  | '0' :: x :: r =>
    if lowerC x = 'x' then underscoreScan true USaw.digit r
    else underscoreScan false USaw.other s1
  | _ => underscoreScan false USaw.other s1

/-- The overflow threshold of float64: a magnitude of at least
    (2^54 - 1) * 2^970 (half an ulp above the largest finite float64)
    rounds to infinity, which Go reports as ErrRange, hence a parse
    failure for this package.  The comparison sig * 10^ex10 against the
    threshold is cleared of the denominator. -/
def decOverflow (sig : Nat) (ex10 : Int) : Bool :=
  (2 ^ 54 - 1) * 2 ^ 970 * 10 ^ (-ex10).toNat ≤ sig * 10 ^ ex10.toNat

/-- Assemble a finite decimal float value, applying Go's range error. -/
def mkDecFin (neg : Bool) (ip fp : GStr) (ex : Int) : Option FloatVal :=
  let sig := decVal ip * 10 ^ fp.length + decVal fp
  let ex10 : Int := ex - fp.length
  if decOverflow sig ex10 then none else some (FloatVal.decimal neg sig ex10)

/-- Decimal mantissa and optional exponent, after sign removal:
    digits [. digits] [e [sign] digits], at least one mantissa digit,
    consuming the whole string. -/
def decFloat (neg : Bool) (s : GStr) : Option FloatVal :=
  let ip := s.takeWhile isDig
  let s1 := s.dropWhile isDig
  let fpRest : GStr × GStr :=
    match s1 with
    | '.' :: r => (r.takeWhile isDig, r.dropWhile isDig)
    | _ => ([], s1)
  let fp := fpRest.1
  if ip = [] ∧ fp = [] then none
  else
    match fpRest.2 with
    | [] => mkDecFin neg ip fp 0
    | e :: r =>
      if lowerC e = 'e' then
        let pe : Bool × GStr :=
          match r with
          | '+' :: r2 => (false, r2)
          | '-' :: r2 => (true, r2)
          | _ => (false, r)
        let ed := pe.2.takeWhile isDig
        if ed = [] ∨ pe.2.dropWhile isDig ≠ [] then none
        else mkDecFin neg ip fp (if pe.1 then -(decVal ed : Int) else (decVal ed : Int))
      else none

/-- Is c an ASCII hexadecimal digit. -/
def isHexDig (c : Char) : Bool := isDig c ∨ ('a' ≤ lowerC c ∧ lowerC c ≤ 'f')

/-- Value of one hexadecimal digit. -/
def hexDigVal (c : Char) : Nat :=
  if isDig c then c.toNat - 48 else (lowerC c).toNat - 87

/-- Value of a hexadecimal digit string. -/
def hexVal (l : GStr) : Nat := l.foldl (fun a c => 16 * a + hexDigVal c) 0

/-- The overflow threshold for the hexadecimal syntax sig * 2^ex2. -/
def hexOverflow (sig : Nat) (ex2 : Int) : Bool :=
  (2 ^ 54 - 1) * 2 ^ 970 * 2 ^ (-ex2).toNat ≤ sig * 2 ^ ex2.toNat

/-- Assemble a finite hexadecimal float value with the same range error. -/
def mkHexFin (neg : Bool) (ip fp : GStr) (ex : Int) : Option FloatVal :=
  let sig := hexVal ip * 16 ^ fp.length + hexVal fp
  let ex2 : Int := ex - 4 * fp.length
  if hexOverflow sig ex2 then none else some (FloatVal.hexfp neg sig ex2)

/-- Hexadecimal mantissa with mandatory binary p exponent, after the 0x
    marker: hexdigits [. hexdigits] p [sign] digits, whole string. -/
def hexFloat (neg : Bool) (s : GStr) : Option FloatVal :=
  let ip := s.takeWhile isHexDig
  let s1 := s.dropWhile isHexDig
  let fpRest : GStr × GStr :=
    match s1 with
    | '.' :: r => (r.takeWhile isHexDig, r.dropWhile isHexDig)
    | _ => ([], s1)
  let fp := fpRest.1
  if ip = [] ∧ fp = [] then none
  else
    match fpRest.2 with
    | [] => none
    | p :: r =>
      if lowerC p = 'p' then
        let pe : Bool × GStr :=
          match r with
          | '+' :: r2 => (false, r2)
          | '-' :: r2 => (true, r2)
          | _ => (false, r)
        let ed := pe.2.takeWhile isDig
        if ed = [] ∨ pe.2.dropWhile isDig ≠ [] then none
        else mkHexFin neg ip fp (if pe.1 then -(decVal ed : Int) else (decVal ed : Int))
      else none

/-- Number parse after the special values: optional sign, then decimal or
    0x-marked hexadecimal mantissa/exponent syntax. -/
def goParseFloatCore (s : GStr) : Option FloatVal :=
  let p : Bool × GStr :=
    match s with
    | '+' :: r => (false, r)
    | '-' :: r => (true, r)
    | _ => (false, s)
  match p.2 with
  | '0' :: x :: r => if lowerC x = 'x' then hexFloat p.1 r else decFloat p.1 p.2
  | _ => decFloat p.1 p.2

/-- Model of strconv.ParseFloat(s, 64): the special values, otherwise the
    number syntax; underscores are allowed exactly when the whole string
    passes underscoreOK, in which case they are skipped. -/
def goParseFloat (s : GStr) : Option FloatVal :=
  match parseSpecial s with
  | some v => some v
  | none =>
    if s.contains '_' then
      if underscoreOK s then goParseFloatCore (s.filter (fun c => c ≠ '_')) else none
    else goParseFloatCore s

/-- A parsed time.Time, restricted to the components the sixteen layouts of
    toDate can set.  Unset components keep Go's Parse defaults
    (year 0, January 1, midnight, UTC). -/
structure GoTime where
  year : Nat
  month : Nat
  day : Nat
  hour : Nat
  minute : Nat
  second : Nat
  frac : List Nat
  zoneMin : Int
deriving DecidableEq

/-- Layout tokens, the hand-tokenization (per Go's nextStdChunk) of the
    sixteen layout strings listed in toDate:
    year4 = "2006", month2 = "01", month1 = "1", day2 = "02", day1 = "2",
    monthShort = "Jan", monthLong = "January", hour2 = "15",
    minute2 = "04", second2 = "05", zoneColon = "Z07:00",
    everything else a literal character. -/
inductive LTok where
  | year4
  | month2
  | month1
  | day2
  | day1
  | monthShort
  | monthLong
  | hour2
  | minute2
  | second2
  | zoneColon
  | lit (c : Char)
deriving DecidableEq

/-- Parser state while running a layout over the input. -/
structure PDate where
  rem : GStr
  year : Nat := 0
  month : Nat := 1
  day : Nat := 1
  hour : Nat := 0
  minute : Nat := 0
  second : Nat := 0
  frac : List Nat := []
  zoneMin : Int := 0

/-- Model of Go time's getnum: a fixed-width field needs exactly two
    digits; otherwise one digit, or two when both are digits. -/
def getnum2 (fixed : Bool) : GStr → Option (Nat × GStr)
  | a :: b :: r =>
    if isDig a then
      if isDig b then some (10 * (a.toNat - 48) + (b.toNat - 48), r)
      else if fixed then none
      else some (a.toNat - 48, b :: r)
    else none
  | [a] => if isDig a ∧ fixed = false then some (a.toNat - 48, []) else none
  | [] => none

/-- The "2006" field: exactly four digits. -/
def getYear4 : GStr → Option (Nat × GStr)
  | a :: b :: c :: d :: r =>
    if isDig a ∧ isDig b ∧ isDig c ∧ isDig d then
      some ((a.toNat - 48) * 1000 + (b.toNat - 48) * 100 + (c.toNat - 48) * 10
            + (d.toNat - 48), r)
    else none
  | _ => none

/-- The month-name tables of Go's time package. -/
def monthShortNames : List GStr :=
  [gs "Jan", gs "Feb", gs "Mar", gs "Apr", gs "May", gs "Jun",
   gs "Jul", gs "Aug", gs "Sep", gs "Oct", gs "Nov", gs "Dec"]

def monthLongNames : List GStr :=
  [gs "January", gs "February", gs "March", gs "April", gs "May", gs "June",
   gs "July", gs "August", gs "September", gs "October", gs "November",
   gs "December"]

/-- Model of Go time's lookup: the first table entry that case-insensitively
    starts the input wins; returns its 1-based index and the rest. -/
def lookupName (i : Nat) (s : GStr) : List GStr → Option (Nat × GStr)
  | [] => none
  | n :: rest =>
    if n.length ≤ s.length ∧ eqFold (s.take n.length) n then
      some (i + 1, s.drop n.length)
    else lookupName (i + 1) s rest

/-- The "Z07:00" zone field: a literal Z, or a sign, two digits, a colon
    and two digits; the offset in minutes. -/
def parseZoneColon : GStr → Option (Int × GStr)
  | 'Z' :: r => some (0, r)
  | sgn :: h1 :: h2 :: ':' :: m1 :: m2 :: r =>
    if (sgn = '+' ∨ sgn = '-') ∧ isDig h1 ∧ isDig h2 ∧ isDig m1 ∧ isDig m2 then
      let v : Int :=
        (10 * (h1.toNat - 48) + (h2.toNat - 48)) * 60
          + (10 * (m1.toNat - 48) + (m2.toNat - 48))
      some (if sgn = '-' then -v else v, r)
    else none
  | _ => none

/-- After the seconds field Go consumes an unannounced fractional second:
    a period or comma followed by digits.  The digits are recorded. -/
def consumeFrac : GStr → List Nat × GStr
  | c :: d :: r =>
    if (c = '.' ∨ c = ',') ∧ isDig d then
      ((d :: r.takeWhile isDig).map (fun x => x.toNat - 48), r.dropWhile isDig)
    else ([], c :: d :: r)
  | s => ([], s)

/-- Run one layout token against the state, with Go's inline range checks
    on hour, minute and second. -/
def parseTok (p : PDate) : LTok → Option PDate
  | LTok.year4 =>
    match getYear4 p.rem with
    | some (v, r) => some { p with year := v, rem := r }
    | none => none
  | LTok.month2 =>
    match getnum2 true p.rem with
    | some (v, r) => some { p with month := v, rem := r }
    | none => none
  | LTok.month1 =>
    match getnum2 false p.rem with
    | some (v, r) => some { p with month := v, rem := r }
    | none => none
  | LTok.day2 =>
    match getnum2 true p.rem with
    | some (v, r) => some { p with day := v, rem := r }
    | none => none
  | LTok.day1 =>
    match getnum2 false p.rem with
    | some (v, r) => some { p with day := v, rem := r }
    | none => none
  | LTok.monthShort =>
    match lookupName 0 p.rem monthShortNames with
    | some (v, r) => some { p with month := v, rem := r }
    | none => none
  | LTok.monthLong =>
    match lookupName 0 p.rem monthLongNames with
    | some (v, r) => some { p with month := v, rem := r }
    | none => none
  | LTok.hour2 =>
    match getnum2 false p.rem with
    | some (v, r) => if v < 24 then some { p with hour := v, rem := r } else none
    | none => none
  | LTok.minute2 =>
    match getnum2 true p.rem with
    | some (v, r) => if v < 60 then some { p with minute := v, rem := r } else none
    | none => none
  | LTok.second2 =>
    match getnum2 true p.rem with
    | some (v, r) =>
      if v < 60 then
        let fr := consumeFrac r
        some { p with second := v, frac := fr.1, rem := fr.2 }
      else none
    | none => none
  | LTok.zoneColon =>
    match parseZoneColon p.rem with
    | some (v, r) => some { p with zoneMin := v, rem := r }
    | none => none
  | LTok.lit c =>
    match p.rem with
    | d :: r => if d = c then some { p with rem := r } else none
    | [] => none

/-- Run a whole layout. -/
def runToks (p : PDate) : List LTok → Option PDate
  | [] => some p
  | t :: ts =>
    match parseTok p t with
    | some p2 => runToks p2 ts
    | none => none

/-- Days in a month, with Go's leap-year rule. -/
def daysIn (m y : Nat) : Nat :=
  if m = 2 then (if y % 4 = 0 ∧ (y % 100 ≠ 0 ∨ y % 400 = 0) then 29 else 28)
  else if m = 4 ∨ m = 6 ∨ m = 9 ∨ m = 11 then 30
  else 31

/-- Model of time.Parse for one layout: run the tokens, require the whole
    input consumed, then Go's end-of-parse month and day-of-month checks. -/
def parseLayout (toks : List LTok) (s : GStr) : Option GoTime :=
  match runToks { rem := s } toks with
  | none => none
  | some p =>
    if p.rem ≠ [] then none
    else if p.month < 1 ∨ 12 < p.month then none
    else if p.day < 1 ∨ daysIn p.month p.year < p.day then none
    else
      some { year := p.year, month := p.month, day := p.day, hour := p.hour,
             minute := p.minute, second := p.second, frac := p.frac,
             zoneMin := p.zoneMin }

/-- The sixteen layouts of toDate, in source order, tokenized as per the
    LTok doc comment: "2006-01-02", "2006-1-2", "2006/01/02", "2006/1/2",
    "20060102", "01022006", "01/02/2006", "1/2/2006", "01-02-2006",
    "1-2-2006", "200601", "Jan 2 2006", "January 2 2006", "Jan 2, 2006",
    "January 2, 2006", and RFC3339 "2006-01-02T15:04:05Z07:00". -/
def fmts : List (List LTok) :=
  [[LTok.year4, LTok.lit '-', LTok.month2, LTok.lit '-', LTok.day2],
   [LTok.year4, LTok.lit '-', LTok.month1, LTok.lit '-', LTok.day1],
   [LTok.year4, LTok.lit '/', LTok.month2, LTok.lit '/', LTok.day2],
   [LTok.year4, LTok.lit '/', LTok.month1, LTok.lit '/', LTok.day1],
   [LTok.year4, LTok.month2, LTok.day2],
   [LTok.month2, LTok.day2, LTok.year4],
   [LTok.month2, LTok.lit '/', LTok.day2, LTok.lit '/', LTok.year4],
   [LTok.month1, LTok.lit '/', LTok.day1, LTok.lit '/', LTok.year4],
   [LTok.month2, LTok.lit '-', LTok.day2, LTok.lit '-', LTok.year4],
   [LTok.month1, LTok.lit '-', LTok.day1, LTok.lit '-', LTok.year4],
   [LTok.year4, LTok.month2],
   [LTok.monthShort, LTok.lit ' ', LTok.day1, LTok.lit ' ', LTok.year4],
   [LTok.monthLong, LTok.lit ' ', LTok.day1, LTok.lit ' ', LTok.year4],
   [LTok.monthShort, LTok.lit ' ', LTok.day1, LTok.lit ',', LTok.lit ' ', LTok.year4],
   [LTok.monthLong, LTok.lit ' ', LTok.day1, LTok.lit ',', LTok.lit ' ', LTok.year4],
   [LTok.year4, LTok.lit '-', LTok.month2, LTok.lit '-', LTok.day2, LTok.lit 'T',
    LTok.hour2, LTok.lit ':', LTok.minute2, LTok.lit ':', LTok.second2, LTok.zoneColon]]

/-- First layout that parses wins. -/
def firstParse (s : GStr) : List (List LTok) → Option GoTime
  | [] => none
  | f :: rest =>
    match parseLayout f s with
    | some d => some d
    | none => firstParse s rest

/-- Model of keyval.toDate: trim spaces at both ends, then try the sixteen
    layouts in order. -/
def toDate (inStr : GStr) : Option GoTime := firstParse (trimSpaces inStr) fmts

/-- The best-type tag, in the source's declaration order. -/
inductive DataType where
  | String
  | Float
  | Int
  | Date
  | SliceStr
  | SliceFloat
  | SliceInt
  | SliceDate
  | InValid
deriving DecidableEq

/-- The Value struct: the string form plus every typed projection the value
    supports.  Go's nil pointers and nil slices are none. -/
structure Value where
  AsString : GStr
  AsInt : Option Int
  AsFloat : Option FloatVal
  AsDate : Option GoTime
  AsSliceS : Option (List GStr)
  AsSliceI : Option (List Int)
  AsSliceF : Option (List FloatVal)
  AsSliceD : Option (List GoTime)
  BestType : DataType
deriving DecidableEq

/-- Model of keyval.toSlices: split on the list delimiter ",", trim each
    element, then collect the elements that parse as int, float and date;
    a typed slice that did not get one entry per element becomes nil. -/
def toSlices (input : GStr) :
    List GStr × Option (List Int) × Option (List FloatVal) × Option (List GoTime) :=
  let asStr := (splitChar ',' input).map trimSpaces
  let asInt := asStr.filterMap (fun e => goParseInt (removeSpaces e))
  let asFloat := asStr.filterMap (fun e => goParseFloat (removeSpaces e))
  let asDate := asStr.filterMap (fun e => toDate e)
  (asStr,
   if asInt.length = asStr.length then some asInt else none,
   if asFloat.length = asStr.length then some asFloat else none,
   if asDate.length = asStr.length then some asDate else none)

/-- Length of a possibly-nil Go slice (len(nil) = 0). -/
def optLen {α : Type} : Option (List α) → Nat
  | none => 0
  | some l => l.length

/-- Model of keyval.Populate.  The float, int and date parses are attempted
    independently, each on success overwriting BestType; the slice
    projections are then filled (the Go nil-check on the split result is
    vacuous, strings.Split never returns nil) and a slice type with more
    than one element overrides BestType in the order string, float, int,
    date. -/
def Populate (valStr : GStr) : Value :=
  let v0 : Value :=
    { AsString := valStr, AsInt := none, AsFloat := none, AsDate := none,
      AsSliceS := none, AsSliceI := none, AsSliceF := none, AsSliceD := none,
      BestType := DataType.String }
  let v1 :=
    match goParseFloat (removeSpaces valStr) with
    | some f => { v0 with AsFloat := some f, BestType := DataType.Float }
    | none => v0
  let v2 :=
    match goParseInt (removeSpaces valStr) with
    | some n => { v1 with AsInt := some n, BestType := DataType.Int }
    | none => v1
  let v3 :=
    match toDate valStr with
    | some d => { v2 with AsDate := some d, BestType := DataType.Date }
    | none => v2
  let slc := toSlices valStr
  let v4 := { v3 with AsSliceS := some slc.1, AsSliceI := slc.2.1,
                      AsSliceF := slc.2.2.1, AsSliceD := slc.2.2.2 }
  let v5 := if 1 < slc.1.length then { v4 with BestType := DataType.SliceStr } else v4
  let v6 := if 1 < optLen slc.2.2.1 then { v5 with BestType := DataType.SliceFloat } else v5
  let v7 := if 1 < optLen slc.2.1 then { v6 with BestType := DataType.SliceInt } else v6
  if 1 < optLen slc.2.2.2 then { v7 with BestType := DataType.SliceDate } else v7

/-- The KeyVal map: an association list in first-insertion order.  An entry
    whose value is none models a key holding a nil *Value (which Go's map
    distinguishes from an absent key). -/
abbrev KeyVal : Type := List (GStr × Option Value)

/-- Number of entries. -/
def kvLen (kv : KeyVal) : Nat := List.length kv

/-- Does the map have an entry for k (the ok of a Go comma-ok index). -/
def kvHas : KeyVal → GStr → Bool
  | [], _ => false
  | (k2, _) :: rest, k => if k2 = k then true else kvHas rest k

/-- The value of a Go map index kv[k]: the stored pointer when the entry
    exists (possibly nil), nil otherwise. -/
def kvIndex : KeyVal → GStr → Option Value
  | [], _ => none
  | (k2, v) :: rest, k => if k2 = k then v else kvIndex rest k

/-- Map assignment kv[k] = v: replace in place, or append a new entry. -/
def kvInsert : KeyVal → GStr → Option Value → KeyVal
  | [], k, v => [(k, v)]
  | (k2, v2) :: rest, k, v =>
    if k2 = k then (k2, v) :: rest else (k2, v2) :: kvInsert rest k v

/-- Model of delete(kv, k). -/
def kvErase : KeyVal → GStr → KeyVal
  | [], _ => []
  | (k2, v2) :: rest, k => if k2 = k then rest else (k2, v2) :: kvErase rest k

/-- Model of KeyVal.Get: returns kv[key] (nil when the key is absent). -/
def Get (kv : KeyVal) (key : GStr) : Option Value := kvIndex kv key

/-- The collection loop of GetMultiple: gather values at root2, root3, ...
    while present, on fuel (the Go loop is unbounded; fuel kvLen kv + 1 is
    proved sufficient below). -/
def getMultipleAux (kv : KeyVal) (root : GStr) : Nat → Nat → List Value
  | _, 0 => []
  | ind, fuel + 1 =>
    match kvIndex kv (root ++ natDec ind) with
    | none => []
    | some v => v :: getMultipleAux kv root (ind + 1) fuel

/-- Model of KeyVal.GetMultiple: the values at root1, root2, ... in order;
    if root1 is absent, the bare root alone when present, else nil
    (none models the nil slice result). -/
def GetMultiple (kv : KeyVal) (root : GStr) : Option (List Value) :=
  match kvIndex kv (root ++ gs "1") with
  | none =>
    match kvIndex kv root with
    | some v => some [v]
    | none => none
  | some v => some (v :: getMultipleAux kv root 2 (kvLen kv + 1))

/-- Model of KeyVal.Missing: clean the needle list, split on ",", and keep
    the needles on which both Get and GetMultiple fail. -/
def Missing (kv : KeyVal) (needles : GStr) : List GStr :=
  if needles = [] then []
  else
    (splitChar ',' (CleanString needles (gs " \n\t"))).filter
      (fun miss => Get kv miss = none ∧ GetMultiple kv miss = none)

/-- Model of KeyVal.Present: the needles found by a direct Get. -/
def Present (kv : KeyVal) (needles : GStr) : List GStr :=
  if needles = [] then []
  else
    (splitChar ',' (CleanString needles (gs " \n\t"))).filter
      (fun ndl => Get kv ndl ≠ none)

/-- One universe entry against one key: equality first, then the wildcard
    test, which indexes the entry's last character and panics (none) on an
    empty entry. -/
def uniEntry (key uni : GStr) : Option Bool :=
  if uni = key then some true
  else
    match uni.getLast? with
    | none => none
    | some c =>
      if c = '*' then
        let shortUni := uni.dropLast
        some (decide (shortUni.length ≤ key.length ∧ key.take shortUni.length = shortUni))
      else some false

/-- Scan the universe entries for one key: found, not found, or panic. -/
def uniFind (key : GStr) : List GStr → Option Bool
  | [] => some false
  | u :: us =>
    match uniEntry key u with
    | none => none
    | some true => some true
    | some false => uniFind key us

/-- The key loop of Unknown: collect the keys matched by no universe entry,
    propagating a wildcard-test panic. -/
def unknownScan (univSlc : List GStr) : List (GStr × Option Value) → Option (List GStr)
  | [] => some []
  | (key, _) :: rest =>
    match uniFind key univSlc with
    | none => none
    | some true => unknownScan univSlc rest
    | some false =>
      match unknownScan univSlc rest with
      | none => none
      | some novel => some (key :: novel)

/-- Model of KeyVal.Unknown: keys of kv matched by no universe entry; none
    models the index-out-of-range panic on an empty universe entry. -/
def Unknown (kv : KeyVal) (univ : GStr) : Option (List GStr) :=
  if univ = [] then some []
  else unknownScan (splitChar ',' (CleanString univ (gs " \n\t"))) kv

/-- The duplicate-search loop of ProcessKVs: while kv has an entry at
    keyTest, bump ind and move keyTest (and key) to base++ind.  Returns the
    final key and ind.  Fuel bounds Go's unbounded loop; kvLen kv + 2 is
    always enough, since the tested keys are pairwise distinct. -/
def dupScan (kv : KeyVal) (base : GStr) : GStr → GStr → Nat → Nat → GStr × Nat
  | _, key, ind, 0 => (key, ind)
  | keyTest, key, ind, fuel + 1 =>
    if kvHas kv keyTest then
      let ind2 := ind + 1
      let kt := base ++ natDec ind2
      dupScan kv base kt kt ind2 fuel
    else (key, ind)

/-- One iteration of the ProcessKVs loop on (key, value). -/
def processStep (kv : KeyVal) (k v : GStr) : KeyVal :=
  let base := k
  let keyTest0 := if kvHas kv base then base else base ++ gs "1"
  let ki := dupScan kv base keyTest0 base 1 (kvLen kv + 2)
  let kv2 :=
    if ki.2 = 2 then kvErase (kvInsert kv (base ++ gs "1") (kvIndex kv base)) base
    else kv
  kvInsert kv2 ki.1 (some (Populate v))

/-- Model of keyval.ProcessKVs.  The Go nil-slice error cannot be stated on
    Lean lists (an empty list is a valid non-nil slice); the length
    mismatch error is the none result. -/
def ProcessKVs (keys vals : List GStr) : Option KeyVal :=
  if keys.length = vals.length then
    some ((keys.zip vals).foldl (fun kv p => processStep kv p.1 p.2) [])
  else none

/-- The line loop of BuildLegals: skip empty lines, split each line on ":"
    (key kv[0], attribute part kv[1]) and the attribute part on "-" (fv[0]
    and fv[1]).  Indexing kv[1] or fv[1] panics (none) when the separator
    is absent from the line. -/
def buildLegalsLines : List GStr → Option (List GStr × List GStr × List GStr)
  | [] => some ([], [], [])
  | lgl :: rest =>
    if lgl = [] then buildLegalsLines rest
    else
      match splitChar ':' lgl with
      | k0 :: k1 :: _ =>
        match splitChar '-' k1 with
        | f0 :: f1 :: _ =>
          match buildLegalsLines rest with
          | none => none
          | some (ks, fs, vs) => some (k0 :: ks, f0 :: fs, f1 :: vs)
        | _ => none
      | _ => none

/-- Model of keyval.BuildLegals: the key, attribute-name and
    attribute-value columns of the rule text. -/
def BuildLegals (legalKeys : GStr) : Option (List GStr × List GStr × List GStr) :=
  buildLegalsLines (splitChar '\n' legalKeys)

/-- Model of keyval.getLgl: the value of the first rule whose key and field
    both match, else the empty string.  The three lists always have equal
    length (BuildLegals builds them together). -/
def getLgl (key field : GStr) : List GStr → List GStr → List GStr → GStr
  | k :: ks, f :: fs, v :: vs =>
    if k = key ∧ f = field then v else getLgl key field ks fs vs
  | _, _, _ => []

/-- The loop of keyval.searchSlice, carrying the running index. -/
def searchSliceAux (needle : GStr) (i : Nat) : List GStr → Int
  | [] => -1
  | hay :: rest => if needle = hay then (i : Int) else searchSliceAux needle (i + 1) rest

/-- Model of keyval.searchSlice: index of needle in haystack, or -1. -/
def searchSlice (needle : GStr) (haystack : List GStr) : Int :=
  searchSliceAux needle 0 haystack

/-- The scan building CheckLegals' allow-list: each rule key carrying a
    "required" attribute, with "*" appended when its "multiple" attribute
    is "yes" (kl, fl, vl stay whole for the getLgl lookup). -/
def uniqueScan (kl fl vl : List GStr) : List GStr → List GStr → List GStr
  | k :: ks, f :: fs =>
    if f = gs "required" then
      (if getLgl k (gs "multiple") kl fl vl = gs "yes" then k ++ gs "*" else k)
        :: uniqueScan kl fl vl ks fs
    else uniqueScan kl fl vl ks fs
  | _, _ => []

/-- The allow-list CheckLegals builds from the rules. -/
def uniqueKeys (kl fl vl : List GStr) : List GStr := uniqueScan kl fl vl kl fl

/-- The required-key loop of CheckLegals: the first rule with
    required-yes whose key Missing reports. -/
def requiredScan (kv : KeyVal) : List GStr → List GStr → List GStr → Option GStr
  | k :: ks, f :: fs, v :: vs =>
    if f = gs "required" ∧ v = gs "yes" ∧ Missing kv k ≠ [] then
      some (gs "missing required key " ++ k)
    else requiredScan kv ks fs vs
  | _, _, _ => none

/-- The dependency check of CheckLegals for one document key. -/
def docCheckRequires (kv : KeyVal) (kl fl vl : List GStr) (k : GStr) :
    Option (Option GStr) :=
  let requires := getLgl k (gs "requires") kl fl vl
  if requires ≠ [] ∧ Missing kv requires ≠ [] then
    some (some (gs "missing required key " ++ requires))
  else some none

/-- The allowed-value check of CheckLegals for one document entry, followed
    by the dependency check.  The outer none is the nil-pointer panic when a
    stored nil value is dereferenced. -/
def docCheckValues (kv : KeyVal) (kl fl vl : List GStr) (k : GStr) (ov : Option Value) :
    Option (Option GStr) :=
  let vals := getLgl k (gs "values") kl fl vl
  if vals ≠ [] then
    match ov with
    | none => none
    | some v =>
      if searchSlice v.AsString (splitChar ',' vals) < 0 then
        some (some (gs "illegal value " ++ v.AsString ++ gs " for key " ++ k))
      else docCheckRequires kv kl fl vl k
  else docCheckRequires kv kl fl vl k

/-- The per-key checks of CheckLegals for one document entry: int type,
    then allowed-value list, then dependency. -/
def docCheckOne (kv : KeyVal) (kl fl vl : List GStr) (k : GStr) (ov : Option Value) :
    Option (Option GStr) :=
  if getLgl k (gs "type") kl fl vl = gs "int" then
    match ov with
    | none => none
    | some v =>
      if v.AsInt = none then some (some (gs "value to key " ++ k ++ gs " must be integer"))
      else docCheckValues kv kl fl vl k ov
  else docCheckValues kv kl fl vl k ov

/-- The document loop of CheckLegals, in entry order. -/
def docScan (kv : KeyVal) (kl fl vl : List GStr) : List (GStr × Option Value) → Option (Option GStr)
  | [] => some none
  | (k, ov) :: rest =>
    match docCheckOne kv kl fl vl k ov with
    | none => none
    | some (some e) => some (some e)
    | some none => docScan kv kl fl vl rest

/-- Model of strings.Join(l, ","). -/
def joinComma : List GStr → GStr
  | [] => []
  | [x] => x
  | x :: xs => x ++ gs "," ++ joinComma xs

/-- Model of fmt's %v rendering of a string slice: the elements joined by
    single spaces inside brackets. -/
def joinSpace : List GStr → GStr
  | [] => []
  | [x] => x
  | x :: xs => x ++ gs " " ++ joinSpace xs

def fmtSlice (l : List GStr) : GStr := gs "[" ++ joinSpace l ++ gs "]"

/-- Model of keyval.CheckLegals: build the rules (a panic there propagates),
    then the required-key scan, then the document scan, then the
    unknown-key scan over the allow-list; the first error wins.
    some none is a nil error, some (some e) the first error, none a panic. -/
def CheckLegals (kv : KeyVal) (legalKeys : GStr) : Option (Option GStr) :=
  match BuildLegals legalKeys with
  | none => none
  | some (kl, fl, vl) =>
    match requiredScan kv kl fl vl with
    | some e => some (some e)
    | none =>
      match docScan kv kl fl vl kv with
      | none => none
      | some (some e) => some (some e)
      | some none =>
        match Unknown kv (joinComma (uniqueKeys kl fl vl)) with
        | none => none
        | some [] => some none
        | some unks => some (some (gs "unknown key(s): " ++ fmtSlice unks))

/-! ### Helper lemmas -/

theorem splitChar_ne_nil (sep : Char) (l : GStr) : splitChar sep l ≠ [] := by
  induction l with
  | nil => simp [splitChar]
  | cons c rest ih =>
    by_cases hc : c = sep
    · simp [splitChar, hc]
    · simp only [splitChar, if_neg hc]
      cases h : splitChar sep rest with
      | nil => simp
      | cons g grps => simp

theorem splitChar_of_not_mem {sep : Char} {l : GStr} (h : sep ∉ l) :
    splitChar sep l = [l] := by
  induction l with
  | nil => rfl
  | cons c rest ih =>
    simp only [List.mem_cons, not_or] at h
    have hc : ¬ c = sep := fun hh => h.1 hh.symm
    simp only [splitChar, if_neg hc, ih h.2]

theorem length_filterMap_eq_iff {α β : Type} (f : α → Option β) (l : List α) :
    ((l.filterMap f).length = l.length) ↔ ∀ x ∈ l, (f x).isSome := by
  induction l with
  | nil => simp
  | cons a t ih =>
    cases hfa : f a with
    | none =>
      simp only [List.filterMap_cons, hfa, List.length_cons]
      constructor
      · intro h
        have := List.length_filterMap_le f t
        omega
      · intro h
        have := h a (by simp)
        simp [hfa] at this
    | some b =>
      simp only [List.filterMap_cons, hfa, List.length_cons, Nat.add_right_cancel_iff]
      rw [ih]
      constructor
      · intro h x hx
        rcases List.mem_cons.mp hx with h1 | h2
        · simp [h1, hfa]
        · exact h x h2
      · intro h x hx
        exact h x (List.mem_cons_of_mem a hx)

/-- Each typed slice of toSlices, when non-nil, has one entry per element. -/
theorem toSlices_int_len (s : GStr) :
    (toSlices s).2.1 = none ∨
      ∃ m, (toSlices s).2.1 = some m ∧ m.length = (toSlices s).1.length := by
  simp only [toSlices]
  split
  · right; exact ⟨_, rfl, by assumption⟩
  · left; rfl

theorem toSlices_float_len (s : GStr) :
    (toSlices s).2.2.1 = none ∨
      ∃ m, (toSlices s).2.2.1 = some m ∧ m.length = (toSlices s).1.length := by
  simp only [toSlices]
  split
  · right; exact ⟨_, rfl, by assumption⟩
  · left; rfl

theorem toSlices_date_len (s : GStr) :
    (toSlices s).2.2.2 = none ∨
      ∃ m, (toSlices s).2.2.2 = some m ∧ m.length = (toSlices s).1.length := by
  simp only [toSlices]
  split
  · right; exact ⟨_, rfl, by assumption⟩
  · left; rfl

theorem toSlices_str_length (s : GStr) :
    (toSlices s).1.length = (splitChar ',' s).length := by
  simp [toSlices]

/-- A successful ParseInt means the string is an optional sign followed by
    digits only; in particular it contains no comma. -/
theorem goParseInt_no_comma {s : GStr} (h : (goParseInt s).isSome) : ',' ∉ s := by
  intro hmem
  have hdig : ∀ (ds : GStr), (ds.all isDig) = true → ',' ∉ ds := by
    intro ds hall hm
    have := List.all_eq_true.mp hall ',' hm
    simp [isDig] at this
  rcases s with _ | ⟨c, rest⟩
  · simp at hmem
  · by_cases hc1 : c = '+'
    · subst hc1
      simp only [goParseInt] at h
      by_cases hrest : rest = []
      · simp [hrest] at h
      · by_cases hall : rest.all isDig
        · rcases List.mem_cons.mp hmem with hcm | hcm
          · exact absurd hcm (by decide)
          · exact hdig rest hall hcm
        · simp [hrest, hall] at h
    · by_cases hc2 : c = '-'
      · subst hc2
        simp only [goParseInt] at h
        by_cases hrest : rest = []
        · simp [hrest, hc1] at h
        · by_cases hall : rest.all isDig
          · rcases List.mem_cons.mp hmem with hcm | hcm
            · exact absurd hcm (by decide)
            · exact hdig rest hall hcm
          · simp [hrest, hall, hc1] at h
      · simp only [goParseInt] at h
        by_cases hall : (c :: rest).all isDig
        · exact hdig (c :: rest) hall hmem
        · simp [hc1, hc2, hall] at h

theorem optLen_isSome_of_pos {α : Type} {o : Option (List α)} (h : 0 < optLen o) :
    o.isSome = true := by
  cases o with
  | none => simp [optLen] at h
  | some l => rfl

/-! ### Claim C1 -/

/-- C1 (counterexample): the integer string "20060102" also matches the
    "20060102" date layout, so Populate classifies it as Date, not as Int
    (and not as a slice-int type). -/
theorem c1_counterexample :
    (goParseInt (removeSpaces (gs "20060102"))).isSome = true
      ∧ (Populate (gs "20060102")).BestType = DataType.Date
      ∧ ¬ (Populate (gs "20060102")).BestType = DataType.Int
      ∧ ¬ (Populate (gs "20060102")).BestType = DataType.SliceInt := by
  refine ⟨by decide, by decide, by decide, by decide⟩

/-- C1 (amended): for every value string whose space-stripped form parses
    as a base-10 integer, Populate yields BestType Int when no date layout
    matches, and BestType Date when one does; it is never Float, String or
    a slice type (such a string contains no list delimiter, so the split
    has a single element and no slice override fires). -/
theorem populate_int_best (s : GStr) (h : (goParseInt (removeSpaces s)).isSome) :
    (Populate s).BestType =
      if (toDate s).isSome then DataType.Date else DataType.Int := by
  have hnc : ',' ∉ s := by
    intro hm
    refine goParseInt_no_comma h ?_
    simp only [removeSpaces, List.mem_filter]
    exact ⟨hm, by decide⟩
  have hsplit : splitChar ',' s = [s] := splitChar_of_not_mem hnc
  have hlen1 : (toSlices s).1.length = 1 := by
    rw [toSlices_str_length, hsplit]
    rfl
  have hIle : ¬ 1 < optLen (toSlices s).2.1 := by
    rcases toSlices_int_len s with h1 | ⟨m, h1, h2⟩
    · simp [h1, optLen]
    · simp [h1, optLen, h2, hlen1]
  have hFle : ¬ 1 < optLen (toSlices s).2.2.1 := by
    rcases toSlices_float_len s with h1 | ⟨m, h1, h2⟩
    · simp [h1, optLen]
    · simp [h1, optLen, h2, hlen1]
  have hDle : ¬ 1 < optLen (toSlices s).2.2.2 := by
    rcases toSlices_date_len s with h1 | ⟨m, h1, h2⟩
    · simp [h1, optLen]
    · simp [h1, optLen, h2, hlen1]
  obtain ⟨n, hn⟩ := Option.isSome_iff_exists.mp h
  cases hd : toDate s with
  | some d =>
    simp only [Populate, hn, hd, hlen1, if_neg hIle, if_neg hFle, if_neg hDle,
      Option.isSome_some, if_pos, lt_irrefl, if_false]
  | none =>
    simp only [Populate, hn, hd, hlen1, if_neg hIle, if_neg hFle, if_neg hDle,
      Option.isSome_none, lt_irrefl, if_false, Bool.false_eq_true]

/-- C1 (amended, witness): the plain integer string "37" matches no date
    layout and gets BestType Int. -/
theorem populate_int_best_witness :
    (goParseInt (removeSpaces (gs "37"))).isSome = true
      ∧ (Populate (gs "37")).BestType =
          (if (toDate (gs "37")).isSome then DataType.Date else DataType.Int) :=
  ⟨by decide, populate_int_best (gs "37") (by decide)⟩

/-! ### Claim C3 -/

/-- C3: ProcessKVs on keys ["a","a","a"] with values ["1","2","3"] yields
    exactly the keys a1, a2, a3 in order of appearance, holding the first,
    second and third value respectively; the bare key "a" is gone. -/
theorem processKVs_triple_dup :
    ProcessKVs [gs "a", gs "a", gs "a"] [gs "1", gs "2", gs "3"] =
      some [(gs "a1", some (Populate (gs "1"))), (gs "a2", some (Populate (gs "2"))),
            (gs "a3", some (Populate (gs "3")))] := by
  decide

/-! ### Claim C4 -/

/-- Is the projection selected by BestType populated.  String is the bare
    AsString field, always present; InValid is never produced by Populate. -/
def bestProjPresent (v : Value) : Bool :=
  match v.BestType with
  | DataType.String => true
  | DataType.Float => v.AsFloat.isSome
  | DataType.Int => v.AsInt.isSome
  | DataType.Date => v.AsDate.isSome
  | DataType.SliceStr => v.AsSliceS.isSome
  | DataType.SliceFloat => v.AsSliceF.isSome
  | DataType.SliceInt => v.AsSliceI.isSome
  | DataType.SliceDate => v.AsSliceD.isSome
  | DataType.InValid => true

/-- C4: for every input string, Populate keeps AsString equal to it, and
    BestType is never a type whose projection is absent. -/
theorem populate_wellformed (s : GStr) :
    (Populate s).AsString = s ∧ bestProjPresent (Populate s) = true := by
  constructor
  · simp only [Populate]
    split <;> split <;> split <;> split <;> split <;> split <;> split <;> rfl
  · cases hf : goParseFloat (removeSpaces s) <;>
      cases hi : goParseInt (removeSpaces s) <;>
        cases hd : toDate s <;>
          (simp only [Populate, hf, hi, hd]
           by_cases h1 : 1 < (toSlices s).1.length <;>
             by_cases h2 : 1 < optLen (toSlices s).2.2.1 <;>
               by_cases h3 : 1 < optLen (toSlices s).2.1 <;>
                 by_cases h4 : 1 < optLen (toSlices s).2.2.2 <;>
                   (simp only [h1, h2, h3, h4, if_true, if_false, ite_true, ite_false,
                      bestProjPresent] <;>
                    first
                      | rfl
                      | exact optLen_isSome_of_pos (by omega)
                      | simp))

/-! ### Claim C5 -/

/-- The typed int slice is non-nil exactly when every split element parses
    as an integer. -/
theorem toSlices_int_iff (s : GStr) :
    (toSlices s).2.1 ≠ none ↔
      ∀ e ∈ (toSlices s).1, (goParseInt (removeSpaces e)).isSome = true := by
  simp only [toSlices]
  split
  · rename_i hlen
    simp only [ne_eq, reduceCtorEq, not_false_eq_true, true_iff]
    exact fun e he => (length_filterMap_eq_iff _ _).mp hlen e he
  · rename_i hlen
    simp only [ne_eq, not_true_eq_false, false_iff, not_forall]
    by_contra hall
    push_neg at hall
    exact hlen ((length_filterMap_eq_iff _ _).mpr (by simpa using hall))

theorem toSlices_float_iff (s : GStr) :
    (toSlices s).2.2.1 ≠ none ↔
      ∀ e ∈ (toSlices s).1, (goParseFloat (removeSpaces e)).isSome = true := by
  simp only [toSlices]
  split
  · rename_i hlen
    simp only [ne_eq, reduceCtorEq, not_false_eq_true, true_iff]
    exact fun e he => (length_filterMap_eq_iff _ _).mp hlen e he
  · rename_i hlen
    simp only [ne_eq, not_true_eq_false, false_iff, not_forall]
    by_contra hall
    push_neg at hall
    exact hlen ((length_filterMap_eq_iff _ _).mpr (by simpa using hall))

theorem toSlices_date_iff (s : GStr) :
    (toSlices s).2.2.2 ≠ none ↔
      ∀ e ∈ (toSlices s).1, (toDate e).isSome = true := by
  simp only [toSlices]
  split
  · rename_i hlen
    simp only [ne_eq, reduceCtorEq, not_false_eq_true, true_iff]
    exact fun e he => (length_filterMap_eq_iff _ _).mp hlen e he
  · rename_i hlen
    simp only [ne_eq, not_true_eq_false, false_iff, not_forall]
    by_contra hall
    push_neg at hall
    exact hlen ((length_filterMap_eq_iff _ _).mpr (by simpa using hall))

/-- C5: when the value splits on the list delimiter into more than one
    element, BestType is a slice type, picked by the precedence
    date > int > float > string among the populated slice projections;
    and each typed projection is populated exactly when every element
    parses under that type. -/
theorem populate_slice (s : GStr) (h : 1 < (splitChar ',' s).length) :
    ((Populate s).BestType =
        (if (toSlices s).2.2.2 ≠ none then DataType.SliceDate
         else if (toSlices s).2.1 ≠ none then DataType.SliceInt
         else if (toSlices s).2.2.1 ≠ none then DataType.SliceFloat
         else DataType.SliceStr))
      ∧ ((toSlices s).2.1 ≠ none ↔
          ∀ e ∈ (toSlices s).1, (goParseInt (removeSpaces e)).isSome = true)
      ∧ ((toSlices s).2.2.1 ≠ none ↔
          ∀ e ∈ (toSlices s).1, (goParseFloat (removeSpaces e)).isSome = true)
      ∧ ((toSlices s).2.2.2 ≠ none ↔
          ∀ e ∈ (toSlices s).1, (toDate e).isSome = true) := by
  have hlen : 1 < (toSlices s).1.length := by
    rw [toSlices_str_length]
    exact h
  have hI : (1 < optLen (toSlices s).2.1) ↔ (toSlices s).2.1 ≠ none := by
    rcases toSlices_int_len s with h1 | ⟨m, h1, h2⟩
    · simp [h1, optLen]
    · simp only [h1, optLen, h2, ne_eq, reduceCtorEq, not_false_eq_true, iff_true]
      exact hlen
  have hF : (1 < optLen (toSlices s).2.2.1) ↔ (toSlices s).2.2.1 ≠ none := by
    rcases toSlices_float_len s with h1 | ⟨m, h1, h2⟩
    · simp [h1, optLen]
    · simp only [h1, optLen, h2, ne_eq, reduceCtorEq, not_false_eq_true, iff_true]
      exact hlen
  have hD : (1 < optLen (toSlices s).2.2.2) ↔ (toSlices s).2.2.2 ≠ none := by
    rcases toSlices_date_len s with h1 | ⟨m, h1, h2⟩
    · simp [h1, optLen]
    · simp only [h1, optLen, h2, ne_eq, reduceCtorEq, not_false_eq_true, iff_true]
      exact hlen
  refine ⟨?_, toSlices_int_iff s, toSlices_float_iff s, toSlices_date_iff s⟩
  cases hf : goParseFloat (removeSpaces s) <;>
    cases hi : goParseInt (removeSpaces s) <;>
      cases hd : toDate s <;>
        (simp only [Populate, hf, hi, hd, if_pos hlen, hI, hF, hD]
         by_cases h2 : (toSlices s).2.2.1 ≠ none <;>
           by_cases h3 : (toSlices s).2.1 ≠ none <;>
             by_cases h4 : (toSlices s).2.2.2 ≠ none <;>
               simp [h2, h3, h4])

/-- C5 (witness): "1,x" splits into two elements; "x" parses under no type,
    so every typed list projection is voided and BestType is SliceStr. -/
theorem populate_slice_witness :
    1 < (splitChar ',' (gs "1,x")).length
      ∧ ((Populate (gs "1,x")).BestType =
          (if (toSlices (gs "1,x")).2.2.2 ≠ none then DataType.SliceDate
           else if (toSlices (gs "1,x")).2.1 ≠ none then DataType.SliceInt
           else if (toSlices (gs "1,x")).2.2.1 ≠ none then DataType.SliceFloat
           else DataType.SliceStr))
      ∧ ((toSlices (gs "1,x")).2.1 ≠ none ↔
          ∀ e ∈ (toSlices (gs "1,x")).1, (goParseInt (removeSpaces e)).isSome = true)
      ∧ ((toSlices (gs "1,x")).2.2.1 ≠ none ↔
          ∀ e ∈ (toSlices (gs "1,x")).1, (goParseFloat (removeSpaces e)).isSome = true)
      ∧ ((toSlices (gs "1,x")).2.2.2 ≠ none ↔
          ∀ e ∈ (toSlices (gs "1,x")).1, (toDate e).isSome = true) :=
  ⟨by decide, populate_slice (gs "1,x") (by decide)⟩

/-! ### Claim C2 -/

theorem append_ne_of_ne_nil (X t : GStr) (ht : t ≠ []) : X ++ t ≠ X := by
  intro h
  have hlen := congrArg List.length h
  simp only [List.length_append] at hlen
  have : t.length = 0 := by omega
  exact ht (List.length_eq_zero.mp this)

theorem append_ne_append {X a b : GStr} (hab : a ≠ b) : X ++ a ≠ X ++ b :=
  fun h => hab (List.append_cancel_left h)

/-- C2: a base key X, then a literal key X1, then a second X.  On the second
    X, ProcessKVs retroactively renames the first X to X1, overwriting the
    literal X1 entry; the final map holds only X1 (with the first X's
    value, the literal entry's value v1 being dropped) and X2. -/
theorem processKVs_literal_collision (X v0 v1 v2 : GStr) :
    ProcessKVs [X, X ++ gs "1", X] [v0, v1, v2] =
      some [(X ++ gs "1", some (Populate v0)), (X ++ gs "2", some (Populate v2))] := by
  have g1 : gs "1" = ['1'] := by decide
  have g2 : gs "2" = ['2'] := by decide
  have hn2 : natDec 2 = ['2'] := by decide
  have n1 : ¬ (X = X ++ ['1']) :=
    fun h => append_ne_of_ne_nil X ['1'] (by decide) h.symm
  have n2 : ¬ (X = (X ++ ['1']) ++ ['1']) := by
    rw [List.append_assoc]
    exact fun h => append_ne_of_ne_nil X (['1'] ++ ['1']) (by decide) h.symm
  have n3 : ¬ (X = X ++ ['2']) :=
    fun h => append_ne_of_ne_nil X ['2'] (by decide) h.symm
  have n4 : ¬ (X ++ ['1'] = X ++ ['2']) := append_ne_append (by decide)
  simp [ProcessKVs, processStep, dupScan, kvHas, kvIndex, kvInsert, kvErase, kvLen,
    g1, g2, hn2, n1, n2, n3, n4]

/-! ### Claim C7 -/

/-- C7: on a document holding "a" plus the duplicate group "b1"/"b2" with no
    bare "b", Missing("a,b") is empty — a needle is present when either Get
    or GetMultiple finds it — while Present("a,b") still reports only "a",
    since Present consults Get alone. -/
theorem missing_multiplicity (kv : KeyVal)
    (ha : Get kv (gs "a") ≠ none)
    (hb1 : Get kv (gs "b1") ≠ none)
    (hb2 : Get kv (gs "b2") ≠ none)
    (hb : Get kv (gs "b") = none) :
    Missing kv (gs "a,b") = [] ∧ Present kv (gs "a,b") = [gs "a"] := by
  have hsp : splitChar ',' (CleanString (gs "a,b") (gs " \n\t")) = [gs "a", gs "b"] := by
    decide
  have hb1' : kvIndex kv (gs "b" ++ gs "1") ≠ none := by
    have e : gs "b" ++ gs "1" = gs "b1" := by decide
    rw [e]
    exact hb1
  obtain ⟨vb1, hvb1⟩ := Option.ne_none_iff_exists'.mp hb1'
  have hgm : GetMultiple kv (gs "b") ≠ none := by
    simp [GetMultiple, hvb1]
  constructor
  · simp only [Missing, hsp]
    rw [if_neg (by decide)]
    simp [List.filter_cons, ha, hgm]
  · simp only [Present, hsp]
    rw [if_neg (by decide)]
    simp only [Get] at ha hb
    simp [List.filter_cons, Get, ha, hb]

/-- C7 (witness): a concrete document with a, b1, b2. -/
theorem missing_multiplicity_witness :
    Missing [(gs "a", some (Populate (gs "1"))), (gs "b1", some (Populate (gs "2"))),
             (gs "b2", some (Populate (gs "3")))] (gs "a,b") = []
      ∧ Present [(gs "a", some (Populate (gs "1"))), (gs "b1", some (Populate (gs "2"))),
                 (gs "b2", some (Populate (gs "3")))] (gs "a,b") = [gs "a"] :=
  missing_multiplicity _ (by decide) (by decide) (by decide) (by decide)

/-! ### Claim C9 -/

theorem getLast?_ne_none {l : GStr} (h : l ≠ []) : l.getLast? ≠ none := by
  induction l with
  | nil => exact absurd rfl h
  | cons a as ih =>
    cases as with
    | nil => simp
    | cons b bs =>
      rw [List.getLast?_cons_cons]
      exact ih (by simp)

theorem uniEntry_ne_none {key u : GStr} (hu : u ≠ []) : uniEntry key u ≠ none := by
  unfold uniEntry
  split
  · simp
  · cases hg : u.getLast? with
    | none => exact absurd hg (getLast?_ne_none hu)
    | some c =>
      simp only [hg]
      split <;> simp

theorem uniFind_no_panic (key : GStr) (us : List GStr) (h : ∀ u ∈ us, u ≠ []) :
    uniFind key us ≠ none := by
  induction us with
  | nil => simp [uniFind]
  | cons u rest ih =>
    simp only [uniFind]
    cases he : uniEntry key u with
    | none => exact absurd he (uniEntry_ne_none (h u (by simp)))
    | some b =>
      cases b
      · exact ih (fun x hx => h x (by simp [hx]))
      · simp

theorem unknownScan_no_panic (univSlc : List GStr) (h : ∀ u ∈ univSlc, u ≠ [])
    (l : List (GStr × Option Value)) : unknownScan univSlc l ≠ none := by
  induction l with
  | nil => simp [unknownScan]
  | cons e rest ih =>
    obtain ⟨k, ov⟩ := e
    simp only [unknownScan]
    cases hf : uniFind k univSlc with
    | none => exact absurd hf (uniFind_no_panic k univSlc h)
    | some b =>
      cases b
      · cases hr : unknownScan univSlc rest with
        | none => exact absurd hr ih
        | some novel => simp
      · exact ih

/-- C9 (counterexample): with the non-empty universe "a,,b" — an empty
    entry between consecutive delimiters — and a non-empty document,
    Unknown hits the index-out-of-range panic (modelled as none). -/
theorem unknown_panic_counterexample :
    gs "a,,b" ≠ [] ∧ Unknown [(gs "z", some (Populate (gs "v")))] (gs "a,,b") = none := by
  exact ⟨by decide, by decide⟩

/-- C9 (amended): Unknown returns normally whenever every entry of the
    cleaned universe is non-empty (the wildcard test then indexes a
    non-empty entry's last character); an empty entry such as in "a,,b"
    can instead panic, as the counterexample shows. -/
theorem unknown_no_panic (kv : KeyVal) (univ : GStr)
    (h : ∀ u ∈ splitChar ',' (CleanString univ (gs " \n\t")), u ≠ []) :
    (Unknown kv univ).isSome = true := by
  unfold Unknown
  split
  · rfl
  · cases hr : unknownScan (splitChar ',' (CleanString univ (gs " \n\t"))) kv with
    | none => exact absurd hr (unknownScan_no_panic _ h kv)
    | some novel => rfl

/-- C9 (amended, witness): a concrete document and a well-formed universe. -/
theorem unknown_no_panic_witness :
    (Unknown [(gs "z", some (Populate (gs "1")))] (gs "a,b")).isSome = true :=
  unknown_no_panic _ _ (by decide)

/-! ### Claim C10 -/

/-- C10 (counterexample): the rule line "abc" has no colon, so BuildLegals
    indexes past the single-element split and panics; CheckLegals calls it
    first, so it panics too. -/
theorem buildLegals_counterexample :
    BuildLegals (gs "abc") = none ∧ CheckLegals [] (gs "abc") = none := by
  exact ⟨by decide, by decide⟩

theorem buildLegalsLines_isSome (lines : List GStr)
    (h : ∀ lgl ∈ lines, lgl = [] ∨
      (2 ≤ (splitChar ':' lgl).length
        ∧ 2 ≤ (splitChar '-' ((splitChar ':' lgl).getD 1 [])).length)) :
    (buildLegalsLines lines).isSome = true := by
  induction lines with
  | nil => rfl
  | cons lgl rest ih =>
    have ihr : (buildLegalsLines rest).isSome = true :=
      ih (fun x hx => h x (by simp [hx]))
    by_cases hnil : lgl = []
    · simpa [buildLegalsLines, hnil] using ihr
    · rcases h lgl (by simp) with he | ⟨hk, hf⟩
      · exact absurd he hnil
      · rcases hsp : splitChar ':' lgl with _ | ⟨k0, ktail⟩
        · exact absurd hsp (splitChar_ne_nil ':' lgl)
        · rcases ktail with _ | ⟨k1, krest⟩
          · rw [hsp] at hk
            simp at hk
          · have hgd : (splitChar ':' lgl).getD 1 [] = k1 := by simp [hsp]
            rw [hgd] at hf
            rcases hfp : splitChar '-' k1 with _ | ⟨f0, ftail⟩
            · exact absurd hfp (splitChar_ne_nil '-' k1)
            · rcases ftail with _ | ⟨f1, frest⟩
              · rw [hfp] at hf
                simp at hf
              · simp only [buildLegalsLines, if_neg hnil, hsp, hfp]
                cases hr : buildLegalsLines rest with
                | none => rw [hr] at ihr; simp at ihr
                | some triple =>
                  obtain ⟨ks, fs, vs⟩ := triple
                  simp

/-- C10 (amended): BuildLegals returns normally when every non-empty rule
    line contains a colon and the text between the first and second colon
    contains a dash; a line without one panics (see the counterexample),
    and a BuildLegals panic propagates through CheckLegals, which calls it
    first. -/
theorem buildLegals_no_panic (legalKeys : GStr)
    (h : ∀ lgl ∈ splitChar '\n' legalKeys, lgl = [] ∨
      (2 ≤ (splitChar ':' lgl).length
        ∧ 2 ≤ (splitChar '-' ((splitChar ':' lgl).getD 1 [])).length)) :
    (BuildLegals legalKeys).isSome = true
      ∧ ∀ (kv : KeyVal) (lgl2 : GStr), BuildLegals lgl2 = none → CheckLegals kv lgl2 = none := by
  constructor
  · exact buildLegalsLines_isSome _ h
  · intro kv lgl2 hnone
    simp [CheckLegals, hnone]

/-- C10 (amended, witness): one well-formed rule line. -/
theorem buildLegals_no_panic_witness :
    (BuildLegals (gs "k:required-yes")).isSome = true
      ∧ ∀ (kv : KeyVal) (lgl2 : GStr), BuildLegals lgl2 = none → CheckLegals kv lgl2 = none :=
  buildLegals_no_panic (gs "k:required-yes") (by decide)

/-! ### Claim C6 -/

/-- C6: CheckLegals reports the first error in the fixed order — the
    required-key scan, then the per-key document scan (int type, allowed
    values, dependencies), then the unknown-key scan over the allow-list
    built from the rules carrying a required attribute — and on rules
    k1:required-yes, k1:type-int with document {k1: "abc"} it reports the
    integer-type error for k1, not a missing-key error. -/
theorem checkLegals_order_and_scenario :
    (∀ (kv : KeyVal) (lgl : GStr) (kl fl vl : List GStr) (e : GStr),
        BuildLegals lgl = some (kl, fl, vl) → requiredScan kv kl fl vl = some e →
          CheckLegals kv lgl = some (some e))
      ∧ (∀ (kv : KeyVal) (lgl : GStr) (kl fl vl : List GStr) (e : GStr),
          BuildLegals lgl = some (kl, fl, vl) → requiredScan kv kl fl vl = none →
            docScan kv kl fl vl kv = some (some e) → CheckLegals kv lgl = some (some e))
      ∧ (∀ (kv : KeyVal) (lgl : GStr) (kl fl vl : List GStr),
          BuildLegals lgl = some (kl, fl, vl) → requiredScan kv kl fl vl = none →
            docScan kv kl fl vl kv = some none →
              CheckLegals kv lgl =
                (match Unknown kv (joinComma (uniqueKeys kl fl vl)) with
                 | none => none
                 | some [] => some none
                 | some unks => some (some (gs "unknown key(s): " ++ fmtSlice unks))))
      ∧ CheckLegals [(gs "k1", some (Populate (gs "abc")))] (gs "k1:required-yes\nk1:type-int")
          = some (some (gs "value to key k1 must be integer")) := by
  refine ⟨?_, ?_, ?_, by decide⟩
  · intro kv lgl kl fl vl e hb hr
    simp [CheckLegals, hb, hr]
  · intro kv lgl kl fl vl e hb hr hd
    simp [CheckLegals, hb, hr, hd]
  · intro kv lgl kl fl vl hb hr hd
    simp [CheckLegals, hb, hr, hd]

/-- C6 (witness): the scenario, reached through the order theorem's second
    phase at concrete rules and document. -/
theorem checkLegals_order_witness :
    CheckLegals [(gs "k1", some (Populate (gs "abc")))] (gs "k1:required-yes\nk1:type-int")
      = some (some (gs "value to key k1 must be integer")) :=
  checkLegals_order_and_scenario.2.1
    [(gs "k1", some (Populate (gs "abc")))] (gs "k1:required-yes\nk1:type-int")
    [gs "k1", gs "k1"] [gs "required", gs "type"] [gs "yes", gs "int"]
    (gs "value to key k1 must be integer") (by decide) (by decide) (by decide)

/-! ### Claim C8 -/

theorem digitChar_toNat {d : Nat} (h : d < 10) : (digitChar d).toNat = 48 + d := by
  interval_cases d <;> decide

theorem decVal_append_digit (l : GStr) (c : Char) :
    decVal (l ++ [c]) = 10 * decVal l + (c.toNat - 48) := by
  simp [decVal, List.foldl_append]

theorem decVal_natDecAux : ∀ (fuel n : Nat), n < fuel → decVal (natDecAux n fuel) = n := by
  intro fuel
  induction fuel with
  | zero => intro n h; omega
  | succ f ih =>
    intro n h
    by_cases h10 : n < 10
    · rw [show natDecAux n (f + 1) = [digitChar n] from by simp [natDecAux, h10]]
      simp only [decVal, List.foldl_cons, List.foldl_nil, digitChar_toNat h10]
      omega
    · simp only [natDecAux, if_neg h10]
      have hdix : n / 10 < f := by
        have := Nat.div_lt_self (show 0 < n by omega) (show 1 < 10 by norm_num)
        omega
      rw [decVal_append_digit, ih (n / 10) hdix,
        digitChar_toNat (Nat.mod_lt n (show 0 < 10 by norm_num))]
      omega

theorem natDec_inj {m n : Nat} (h : natDec m = natDec n) : m = n := by
  have hm := decVal_natDecAux (m + 1) m (by omega)
  have hn := decVal_natDecAux (n + 1) n (by omega)
  rw [natDec, natDec] at h
  rw [← hm, ← hn, h]

theorem kvIndex_mem {kv : KeyVal} {k : GStr} {v : Value} (h : kvIndex kv k = some v) :
    k ∈ kv.map Prod.fst := by
  induction kv with
  | nil => simp [kvIndex] at h
  | cons e rest ih =>
    obtain ⟨k2, v2⟩ := e
    simp only [kvIndex] at h
    by_cases he : k2 = k
    · simp [he]
    · rw [if_neg he] at h
      simp [ih h]

/-- Pigeonhole: a run of m distinct suffixed keys all present in the map
    forces m at most the number of entries. -/
theorem suffix_run_le (kv : KeyVal) (root : GStr) (start m : Nat)
    (h : ∀ j, j < m → kvIndex kv (root ++ natDec (start + j)) ≠ none) :
    m ≤ kvLen kv := by
  have hinj : Function.Injective (fun j : Nat => root ++ natDec (start + j)) := by
    intro a b hab
    simp only [] at hab
    have h2 := natDec_inj (List.append_cancel_left hab)
    omega
  have hnodup : ((List.range m).map (fun j => root ++ natDec (start + j))).Nodup :=
    (List.nodup_range m).map hinj
  have hsub : (List.range m).map (fun j => root ++ natDec (start + j)) ⊆ kv.map Prod.fst := by
    intro x hx
    obtain ⟨j, hj, rfl⟩ := List.mem_map.mp hx
    obtain ⟨v, hv⟩ := Option.ne_none_iff_exists'.mp (h j (List.mem_range.mp hj))
    exact kvIndex_mem hv
  have hle := (hnodup.subperm hsub).length_le
  simpa [kvLen] using hle

/-- With enough fuel to reach an absent suffix, the collection loop of
    GetMultiple returns exactly the contiguous run: every element is the
    value of the corresponding suffixed key and the next suffix is absent. -/
theorem getMultipleAux_spec (kv : KeyVal) (root : GStr) :
    ∀ (fuel ind : Nat),
      (∃ j, j < fuel ∧ kvIndex kv (root ++ natDec (ind + j)) = none) →
      (∀ i, i < (getMultipleAux kv root ind fuel).length →
          kvIndex kv (root ++ natDec (ind + i)) = (getMultipleAux kv root ind fuel)[i]?)
        ∧ kvIndex kv (root ++ natDec (ind + (getMultipleAux kv root ind fuel).length)) = none := by
  intro fuel
  induction fuel with
  | zero =>
    intro ind h
    obtain ⟨j, hj, _⟩ := h
    omega
  | succ f ih =>
    intro ind h
    obtain ⟨j, hj, hnone⟩ := h
    cases hix : kvIndex kv (root ++ natDec ind) with
    | none =>
      simp only [getMultipleAux, hix, List.length_nil]
      exact ⟨fun i hi => by omega, by simpa using hix⟩
    | some v =>
      have hj0 : j ≠ 0 := by
        intro h0
        rw [h0, Nat.add_zero] at hnone
        rw [hnone] at hix
        cases hix
      obtain ⟨j2, rfl⟩ := Nat.exists_eq_succ_of_ne_zero hj0
      have hex2 : ∃ j2b, j2b < f ∧ kvIndex kv (root ++ natDec (ind + 1 + j2b)) = none := by
        refine ⟨j2, by omega, ?_⟩
        rw [show ind + 1 + j2 = ind + (j2 + 1) from by omega]
        exact hnone
      obtain ⟨ihA, ihB⟩ := ih (ind + 1) hex2
      simp only [getMultipleAux, hix, List.length_cons]
      constructor
      · intro i hi
        cases i with
        | zero =>
          rw [Nat.add_zero]
          simpa using hix
        | succ i2 =>
          rw [show ind + (i2 + 1) = ind + 1 + i2 from by omega]
          simpa using ihA i2 (by omega)
      · rw [show ind + ((getMultipleAux kv root (ind + 1) f).length + 1)
            = ind + 1 + (getMultipleAux kv root (ind + 1) f).length from by omega]
        exact ihB

/-- Some suffix within fuel kvLen kv + 1 is absent. -/
theorem exists_absent_suffix (kv : KeyVal) (root : GStr) (ind : Nat) :
    ∃ j, j < kvLen kv + 1 ∧ kvIndex kv (root ++ natDec (ind + j)) = none := by
  by_contra hc
  push_neg at hc
  have := suffix_run_le kv root ind (kvLen kv + 1) hc
  omega

/-- C8: GetMultiple returns the values of root1, root2, ... in suffix
    order, stopping at the first absent suffix; when root1 is absent it
    returns [doc[root]] if the bare root exists and nothing otherwise. -/
theorem getMultiple_spec (kv : KeyVal) (root : GStr) :
    (kvIndex kv (root ++ gs "1") = none →
        GetMultiple kv root =
          (match kvIndex kv root with
           | some v => some [v]
           | none => none))
      ∧ (∀ v1, kvIndex kv (root ++ gs "1") = some v1 →
          ∃ vs, GetMultiple kv root = some (v1 :: vs)
            ∧ (∀ i, i < vs.length + 1 →
                kvIndex kv (root ++ natDec (i + 1)) = (v1 :: vs)[i]?)
            ∧ kvIndex kv (root ++ natDec (vs.length + 2)) = none) := by
  constructor
  · intro h1
    simp [GetMultiple, h1]
  · intro v1 h1
    obtain ⟨hA, hB⟩ := getMultipleAux_spec kv root (kvLen kv + 1) 2 (exists_absent_suffix kv root 2)
    refine ⟨getMultipleAux kv root 2 (kvLen kv + 1), ?_, ?_, ?_⟩
    · simp [GetMultiple, h1]
    · intro i hi
      cases i with
      | zero =>
        rw [show natDec (0 + 1) = gs "1" from by decide]
        simpa using h1
      | succ i2 =>
        rw [show i2 + 1 + 1 = 2 + i2 from by omega]
        simpa using hA i2 (by omega)
    · rw [show (getMultipleAux kv root 2 (kvLen kv + 1)).length + 2
          = 2 + (getMultipleAux kv root 2 (kvLen kv + 1)).length from by omega]
      exact hB

/-- C8 (witness): a document with the duplicate group r1, r2. -/
theorem getMultiple_spec_witness :
    ∃ vs, GetMultiple [(gs "r1", some (Populate (gs "1"))),
            (gs "r2", some (Populate (gs "2")))] (gs "r")
          = some (Populate (gs "1") :: vs)
        ∧ (∀ i, i < vs.length + 1 →
            kvIndex [(gs "r1", some (Populate (gs "1"))), (gs "r2", some (Populate (gs "2")))]
              (gs "r" ++ natDec (i + 1)) = (Populate (gs "1") :: vs)[i]?)
        ∧ kvIndex [(gs "r1", some (Populate (gs "1"))), (gs "r2", some (Populate (gs "2")))]
            (gs "r" ++ natDec (vs.length + 2)) = none :=
  (getMultiple_spec [(gs "r1", some (Populate (gs "1"))), (gs "r2", some (Populate (gs "2")))]
    (gs "r")).2 (Populate (gs "1")) (by decide)
